import Mathlib

/-!
Verification of the `AnMpid` identity record of `maidsafe_types`
(`src/id/an_mpid.rs`): a shallow embedding of the record type, its
equality, Debug formatting, address derivation (`RoutingTrait::get_name`),
owner accessor, and its `Encodable`/`Decodable` wire codec, together with
theorems settling the specification claims about them.

Byte sequences are `List Nat` (each entry a byte value); no arithmetic is
performed on bytes by this code, only copies and comparisons, so no
reduction modulo 256 is needed.  Fixed array lengths (`[u8; 32]`,
`[u8; 64]`) become well-formedness hypotheses (`AnMpid.wf`).

Components of the repository that the claims depend on but that live
outside `src/` (the `NameType` wrapper of `common.rs`, the byte-array
conversion helpers of `helper.rs`, and the external CBOR tag
encoder/decoder) are modelled from the specification; each such
definition carries a doc comment beginning `Modelled from the spec:`.
The SHA-512 hash used by address derivation is an external collaborator
and is kept abstract as a function parameter `H`.
-/

namespace MaidsafeTypes

/-- A byte value, kept as an unbounded natural number. -/
abbrev Byte := Nat

/-- Modelled from the spec: `NameType` (defined in `common.rs`, which is not
under `src/`) is an opaque fixed-size 64-byte identifier wrapping a single
`[u8; 64]` array. -/
structure NameType where
  bytes : List Byte
  deriving Repr, DecidableEq

/-- Modelled from the spec: the `PartialEq` of the opaque 64-byte `NameType`
identifier (from `common.rs`, not under `src/`) is byte equality of the
wrapped array. -/
def NameType.beq (a b : NameType) : Bool :=
  a.bytes == b.bytes

/-- The `AnMpid` struct of `an_mpid.rs`: a pair of public keys
(signing key then encryption key), a pair of secret keys (signing then
encryption), and a `NameType` correlation name.  In the source the key
components are fixed-size arrays: signing public `[u8; 32]`, encryption
public `[u8; 32]`, signing secret `[u8; 64]`, encryption secret `[u8; 32]`
(the lengths are pinned by the `vector_as_u8_32_array` /
`vector_as_u8_64_array` call sites in `decode`). -/
structure AnMpid where
  public_keys : List Byte × List Byte
  secret_keys : List Byte × List Byte
  name : NameType
  deriving Repr, DecidableEq

/-- Well-formedness: the five byte arrays have the fixed sizes that the
Rust types `(sign::PublicKey, asymmetricbox::PublicKey)`,
`(sign::SecretKey, asymmetricbox::SecretKey)` and `NameType` enforce. -/
def AnMpid.wf (r : AnMpid) : Prop :=
  r.public_keys.1.length = 32 ∧ r.public_keys.2.length = 32 ∧
  r.secret_keys.1.length = 64 ∧ r.secret_keys.2.length = 32 ∧
  r.name.bytes.length = 64

instance (r : AnMpid) : Decidable r.wf := by
  unfold AnMpid.wf
  infer_instance

/-- `AnMpid::new` (an_mpid.rs lines 145-153): plain record construction. -/
def AnMpid.new (public_keys : List Byte × List Byte)
    (secret_keys : List Byte × List Byte) (name_type : NameType) : AnMpid :=
  { public_keys := public_keys, secret_keys := secret_keys, name := name_type }

/-- `AnMpid::get_public_keys` (an_mpid.rs lines 154-156). -/
def AnMpid.get_public_keys (r : AnMpid) : List Byte × List Byte :=
  r.public_keys

/-- `AnMpid::get_secret_keys` (an_mpid.rs lines 157-159). -/
def AnMpid.get_secret_keys (r : AnMpid) : List Byte × List Byte :=
  r.secret_keys

/-- The inherent accessor `AnMpid::get_name` (an_mpid.rs lines 160-162):
returns the stored correlation name. -/
def AnMpid.get_name (r : AnMpid) : NameType :=
  r.name

/-- Pointwise comparison `xs.iter().zip(ys.iter()).all(|(a,b)| a == b)`
used by the `PartialEq` implementation (an_mpid.rs lines 120-123). -/
def zipAllEq (xs ys : List Byte) : Bool :=
  (xs.zip ys).all fun p => p.1 == p.2

/-- `PartialEq for AnMpid` (an_mpid.rs lines 105-125): first returns
`false` when the names differ, then compares, in order, the signing
public, encryption public, signing secret and encryption secret key
bytes pointwise. -/
def AnMpid.eq (a b : AnMpid) : Bool :=
  if NameType.beq a.name b.name = false then false
  else
    zipAllEq a.public_keys.1 b.public_keys.1 &&
    zipAllEq a.public_keys.2 b.public_keys.2 &&
    zipAllEq a.secret_keys.1 b.secret_keys.1 &&
    zipAllEq a.secret_keys.2 b.secret_keys.2

/-- Embedding of the indexed copy loop
`for i in 0..src.len() { dst[off + i] = src[i]; }` used by
`RoutingTrait::get_name` (an_mpid.rs lines 65-70): performs the same
sequence of in-bounds writes, one element of `src` at a time. -/
def copyLoop (dst : List Byte) (off : Nat) : List Byte → List Byte
  | [] => dst
  | x :: xs => copyLoop (dst.set off x) (off + 1) xs

/-- The `arr_combined` buffer of `RoutingTrait::get_name` (an_mpid.rs
lines 63-70): a `[0u8; 64 * 2]` buffer into which the signing public key
is copied at offset 0 and the encryption public key at offset 64. -/
def arr_combined (r : AnMpid) : List Byte :=
  copyLoop (copyLoop (List.replicate (64 * 2) 0) 0 r.public_keys.1) 64 r.public_keys.2

namespace RoutingTrait

/-- `<AnMpid as RoutingTrait>::get_name` (an_mpid.rs lines 59-75): hashes
the combined buffer with SHA-512 and wraps the 64-byte digest in a
`NameType`.  The external hash is the parameter `H`. -/
def get_name (H : List Byte → List Byte) (r : AnMpid) : NameType :=
  NameType.mk (H (arr_combined r))

end RoutingTrait

/-- Modelled from the spec: `array_as_vector` (from `helper.rs`, not under
`src/`) converts a fixed-size byte array into the equal variable-length
byte sequence. -/
def array_as_vector (arr : List Byte) : List Byte :=
  arr

/-- `<AnMpid as RoutingTrait>::get_owner` (an_mpid.rs lines 77-79):
always `Some` of the stored correlation name bytes. -/
def RoutingTrait.get_owner (r : AnMpid) : Option (List Byte) :=
  some (array_as_vector r.name.bytes)

/-! ### Wire model for the `Encodable`/`Decodable` implementations -/

/-- Modelled from the spec: one token of the external tag-encoding
scheme's wire form — either one numeric (`u64`) value or one
variable-length byte sequence.  The encoder writes tokens in order; the
decoder consumes them from the front. -/
inductive Token where
  | u64 (n : Nat)
  | byteSeq (bs : List Byte)
  deriving Repr, DecidableEq

/-- A wire form: a sequence of tokens. -/
abbrev Wire := List Token

/-- Modelled from the spec: the external encoder's write of a `u64`. -/
def emitU64 (n : Nat) (w : Wire) : Wire :=
  w ++ [Token.u64 n]

/-- Modelled from the spec: the external encoder's write of one byte
sequence. -/
def emitBytes (bs : List Byte) (w : Wire) : Wire :=
  w ++ [Token.byteSeq bs]

/-- Modelled from the spec: `NameType`'s `Encodable` implementation (in
`common.rs`, not under `src/`) writes the correlation name as its own
sub-structure holding the 64 name bytes. -/
def NameType.encodeTo (n : NameType) (w : Wire) : Wire :=
  emitBytes n.bytes w

/-- Modelled from the spec: `CborTagEncode::new(tag, value).encode(e)`
writes the numeric tag first, then the value. -/
def cborTagEncode (tag : Nat) (enc : Wire → Wire) (w : Wire) : Wire :=
  enc (emitU64 tag w)

/-- `Encodable for AnMpid` (an_mpid.rs lines 165-177): a `CborTagEncode`
with tag `5483_001` whose value is the 5-tuple `(pub_sign, pub_asym,
sec_sign, sec_asym, name)`; each key array is turned into a byte
sequence by `array_as_vector` and the tuple components are written in
order. -/
def AnMpid.encode (r : AnMpid) : Wire :=
  cborTagEncode 5483001
    (fun w =>
      NameType.encodeTo r.name
        (emitBytes (array_as_vector r.secret_keys.2)
          (emitBytes (array_as_vector r.secret_keys.1)
            (emitBytes (array_as_vector r.public_keys.2)
              (emitBytes (array_as_vector r.public_keys.1) w))))) []

/-- The `SizeMismatch` failure of the specification's error taxonomy:
the expected fixed length and the actual length found. -/
structure SizeMismatch where
  expected : Nat
  actual : Nat
  deriving Repr, DecidableEq

/-- Decode failures.  `typeMismatch` is a wire-shape error from the
external decoder's reads.  `malformedRecord` is the aggregated failure
the specification's error taxonomy prescribes for wrong-length key
fields; it is part of the error type so that theorems can speak about
it, but the decode of an_mpid.rs:179-189 never constructs it: its only
failure exits are the reads. -/
inductive DecodeError where
  | typeMismatch
  | malformedRecord (failures : List SizeMismatch)
  deriving Repr, DecidableEq

/-- Modelled from the spec and the `src/` call sites:
`vector_as_u8_32_array` (from `helper.rs`, not under `src/`) produces
the `[u8; 32]` array of a byte sequence.  Its results feed directly
into the key constructors at an_mpid.rs:183-186, so it returns a bare
array with no error channel; on a sequence of the expected length 32 it
returns exactly those bytes (the only behavior compatible with the spec
and with the source's round-trip test).  Its behavior on other lengths
is not determined by `src/` (the spec's `SizeMismatch` signalling does
not fit the call site's type) and is modelled neutrally as returning
the bytes unchanged; the theorems that depend on wrong-length behavior
quantify over arbitrary conversions instead of relying on this
choice. -/
def vector_as_u8_32_array (v : List Byte) : List Byte :=
  v

/-- Modelled from the spec and the `src/` call sites:
`vector_as_u8_64_array` (from `helper.rs`, not under `src/`), the
64-byte analogue of `vector_as_u8_32_array`, likewise returning a bare
array with no error channel. -/
def vector_as_u8_64_array (v : List Byte) : List Byte :=
  v

/-- Modelled from the spec: the external decoder's `read_u64`. -/
def readU64 : Wire → Except DecodeError (Nat × Wire)
  | Token.u64 n :: w => Except.ok (n, w)
  | _ => Except.error DecodeError.typeMismatch

/-- Modelled from the spec: the external decoder's read of one byte
sequence. -/
def readByteSeq : Wire → Except DecodeError (List Byte × Wire)
  | Token.byteSeq bs :: w => Except.ok (bs, w)
  | _ => Except.error DecodeError.typeMismatch

/-- Modelled from the spec: `NameType`'s `Decodable` implementation
reads back the sub-structure holding the 64 name bytes. -/
def NameType.decodeFrom (w : Wire) : Except DecodeError (NameType × Wire) :=
  match readByteSeq w with
  | Except.error e => Except.error e
  | Except.ok (bs, w1) => Except.ok (NameType.mk bs, w1)

/-- `Decodable for AnMpid` (an_mpid.rs lines 179-189), parametric in
the two byte-array conversions of the absent `helper.rs` (whose call
sites force bare array results with no error channel): read and discard
the leading `u64` tag (the source's `try!(d.read_u64())`), read the
five tuple fields in order (four key byte sequences, then the name),
feed the four key byte sequences directly into the key constructors
through the conversions, and return `Ok` unconditionally — the source
has no failure exit after the reads. -/
def AnMpid.decodeFromWith (conv32 conv64 : List Byte → List Byte) (w : Wire) :
    Except DecodeError (AnMpid × Wire) :=
  match readU64 w with
  | Except.error e => Except.error e
  | Except.ok (_, w1) =>
    match readByteSeq w1 with
    | Except.error e => Except.error e
    | Except.ok (pub_sign_vec, w2) =>
      match readByteSeq w2 with
      | Except.error e => Except.error e
      | Except.ok (pub_asym_vec, w3) =>
        match readByteSeq w3 with
        | Except.error e => Except.error e
        | Except.ok (sec_sign_vec, w4) =>
          match readByteSeq w4 with
          | Except.error e => Except.error e
          | Except.ok (sec_asym_vec, w5) =>
            match NameType.decodeFrom w5 with
            | Except.error e => Except.error e
            | Except.ok (nm, w6) =>
              Except.ok (AnMpid.new (conv32 pub_sign_vec, conv32 pub_asym_vec)
                (conv64 sec_sign_vec, conv32 sec_asym_vec) nm, w6)

/-- `Decodable for AnMpid` (an_mpid.rs lines 179-189) with the modelled
helper conversions. -/
def AnMpid.decodeFrom (w : Wire) : Except DecodeError (AnMpid × Wire) :=
  AnMpid.decodeFromWith vector_as_u8_32_array vector_as_u8_64_array w

/-! ### Debug formatting model -/

/-- Rust's `Debug` rendering of a byte array or byte vector:
`[b0, b1, ...]` with the bytes in decimal. -/
def fmtByteList (bs : List Byte) : String :=
  "[" ++ String.intercalate ", " (bs.map Nat.repr) ++ "]"

/-- Modelled from the spec: the `Debug` rendering of the opaque 64-byte
`NameType` correlation name (its implementation lives in `common.rs`,
outside `src/`); rendered as its byte list, which is all the claims
need of it. -/
def NameType.fmtDebug (n : NameType) : String :=
  fmtByteList n.bytes

/-- `fmt::Debug for AnMpid` (an_mpid.rs lines 96-103): writes the text
`AnMpid(public_keys:(..), secret_keys:(..), name: ..)` interpolating the
two public keys, the two secret keys (the signing secret via
`.to_vec()`, same rendering) and the name. -/
def AnMpid.fmtDebug (r : AnMpid) : String :=
  "AnMpid(public_keys:(" ++ fmtByteList r.public_keys.1 ++ ", " ++
    fmtByteList r.public_keys.2 ++ "), secret_keys:(" ++
    fmtByteList r.secret_keys.1 ++ ", " ++ fmtByteList r.secret_keys.2 ++
    "), name: " ++ NameType.fmtDebug r.name ++ ")"

/-- Boolean test that one character list starts with another. -/
def startsWithChars : List Char → List Char → Bool
  | [], _ => true
  | _ :: _, [] => false
  | c :: cs, d :: ds => c == d && startsWithChars cs ds

/-- Boolean substring search: does the second list contain the first as
a contiguous run? -/
def containsChars (needle : List Char) : List Char → Bool
  | [] => startsWithChars needle []
  | c :: rest => startsWithChars needle (c :: rest) || containsChars needle rest

/-- Whether the decimal `Debug` rendering of the byte array `bs` occurs
as a substring of `s`. -/
def stringContainsBytes (s : String) (bs : List Byte) : Bool :=
  containsChars (fmtByteList bs).data s.data

/-! ### Concrete example records used by counterexamples and witnesses -/

/-- A well-formed record with distinctive byte values in every field. -/
def exRecord : AnMpid :=
  AnMpid.new (List.replicate 32 1, List.replicate 32 2)
    (List.replicate 64 3, List.replicate 32 4) (NameType.mk (List.replicate 64 5))

/-- Same public keys as `exRecord`, different secret keys and name. -/
def exRecord2 : AnMpid :=
  AnMpid.new (List.replicate 32 1, List.replicate 32 2)
    (List.replicate 64 7, List.replicate 32 8) (NameType.mk (List.replicate 64 9))

/-- Same public and secret keys as `exRecord`, different name only. -/
def exRecord3 : AnMpid :=
  AnMpid.new (List.replicate 32 1, List.replicate 32 2)
    (List.replicate 64 3, List.replicate 32 4) (NameType.mk (List.replicate 64 6))

/-! ### Helper lemmas -/

theorem nameType_beq_iff (a b : NameType) : NameType.beq a b = true ↔ a = b := by
  cases a
  cases b
  simp [NameType.beq]

theorem zipAllEq_iff :
    ∀ (xs ys : List Byte), xs.length = ys.length → (zipAllEq xs ys = true ↔ xs = ys)
  | [], [] => by simp [zipAllEq]
  | [], _ :: _ => by intro h; simp at h
  | _ :: _, [] => by intro h; simp at h
  | x :: xs, y :: ys => by
      intro h
      have h' : xs.length = ys.length := by simpa using h
      have hz : zipAllEq (x :: xs) (y :: ys) = ((x == y) && zipAllEq xs ys) := by
        simp [zipAllEq]
      rw [hz]
      simp [zipAllEq_iff xs ys h']

theorem zipAllEq_self (xs : List Byte) : zipAllEq xs xs = true :=
  (zipAllEq_iff xs xs rfl).mpr rfl

theorem copyLoop_length :
    ∀ (src dst : List Byte) (off : Nat), (copyLoop dst off src).length = dst.length
  | [], _, _ => rfl
  | x :: xs, dst, off => by
      rw [copyLoop, copyLoop_length xs]
      exact dst.length_set off x

theorem copyLoop_eq :
    ∀ (src dst : List Byte) (off : Nat), off + src.length ≤ dst.length →
      copyLoop dst off src = dst.take off ++ src ++ dst.drop (off + src.length)
  | [], dst, off => by
      intro _
      simp [copyLoop]
  | x :: xs, dst, off => by
      intro h
      simp only [List.length_cons] at h ⊢
      have hofflt : off < dst.length := by omega
      have hset : dst.set off x = dst.take off ++ x :: dst.drop (off + 1) :=
        List.set_eq_take_cons_drop x hofflt
      have hbound : (off + 1) + xs.length ≤ (dst.set off x).length := by
        rw [List.length_set]
        omega
      have htklen : (dst.take off).length = off := by
        rw [List.length_take]
        omega
      have e1 : List.take (off + 1) (dst.take off ++ x :: dst.drop (off + 1)) =
          dst.take off ++ [x] := by
        rw [List.take_append_eq_append_take, htklen,
          @List.take_of_length_le _ (off + 1) (dst.take off) (by rw [htklen]; omega)]
        have h2 : off + 1 - off = 1 := by omega
        rw [h2]
        simp
      have e2 : List.drop (off + 1 + xs.length) (dst.take off ++ x :: dst.drop (off + 1)) =
          dst.drop (off + (xs.length + 1)) := by
        rw [List.drop_append_eq_append_drop, htklen,
          @List.drop_of_length_le _ (off + 1 + xs.length) (dst.take off)
            (by rw [htklen]; omega)]
        have h3 : off + 1 + xs.length - off = xs.length + 1 := by omega
        rw [h3]
        simp only [List.nil_append, List.drop_succ_cons, List.drop_drop]
        congr 1
        omega
      rw [copyLoop, copyLoop_eq xs (dst.set off x) (off + 1) hbound, hset, e1, e2]
      simp [List.append_assoc]

theorem arr_combined_eq (r : AnMpid) (h1 : r.public_keys.1.length = 32)
    (h2 : r.public_keys.2.length = 32) :
    arr_combined r =
      r.public_keys.1 ++ List.replicate 32 0 ++ r.public_keys.2 ++ List.replicate 32 0 := by
  unfold arr_combined
  rw [copyLoop_eq r.public_keys.1 (List.replicate (64 * 2) 0) 0 (by simp [h1]),
      copyLoop_eq r.public_keys.2 _ 64
        (by simp [List.length_append, List.length_replicate, h1, h2])]
  simp [List.take_append_eq_append_take, List.drop_append_eq_append_drop,
    List.take_replicate, List.drop_replicate, h1, h2,
    List.take_of_length_le, List.drop_of_length_le, List.append_assoc]

/-! ### Claim C1: record equality -/

/-- C1 (counterexample): the claim says two records with identical public
key pairs but different correlation names compare equal, and that secret
keys and the correlation name do not participate in `==`.  `exRecord` and
`exRecord3` have identical public keys and identical secret keys and
differ only in the correlation name, yet `AnMpid::eq` returns `false`,
because the implementation compares the names first. -/
theorem eq_false_despite_equal_public_keys :
    exRecord.public_keys = exRecord3.public_keys ∧
    exRecord.secret_keys = exRecord3.secret_keys ∧
    exRecord.name ≠ exRecord3.name ∧
    AnMpid.eq exRecord exRecord3 = false ∧
    exRecord.wf ∧ exRecord3.wf := by
  decide

/-- C1 (amended): for well-formed records, `AnMpid::eq` returns `true` iff
the correlation names are byte-equal, the public signing and encryption
key bytes are byte-equal, and the secret signing and encryption key bytes
are byte-equal: the correlation name and the secret keys do participate
in the comparison, contrary to the claim. -/
theorem eq_true_iff_name_and_all_keys (a b : AnMpid) (ha : a.wf) (hb : b.wf) :
    AnMpid.eq a b = true ↔
      a.name = b.name ∧ a.public_keys = b.public_keys ∧ a.secret_keys = b.secret_keys := by
  obtain ⟨ha1, ha2, ha3, ha4, _⟩ := ha
  obtain ⟨hb1, hb2, hb3, hb4, _⟩ := hb
  cases hbeq : NameType.beq a.name b.name with
  | false =>
      have hn : a.name ≠ b.name := by
        intro he
        rw [he] at hbeq
        rw [(nameType_beq_iff b.name b.name).mpr rfl] at hbeq
        exact Bool.noConfusion hbeq
      simp [AnMpid.eq, hbeq, hn]
  | true =>
      have hn : a.name = b.name := (nameType_beq_iff a.name b.name).mp hbeq
      simp [AnMpid.eq, hbeq, hn, Bool.and_eq_true, nameType_beq_iff,
        zipAllEq_iff a.public_keys.1 b.public_keys.1 (ha1.trans hb1.symm),
        zipAllEq_iff a.public_keys.2 b.public_keys.2 (ha2.trans hb2.symm),
        zipAllEq_iff a.secret_keys.1 b.secret_keys.1 (ha3.trans hb3.symm),
        zipAllEq_iff a.secret_keys.2 b.secret_keys.2 (ha4.trans hb4.symm),
        Prod.ext_iff, and_assoc]

/-- Witness for the amended C1 theorem at a concrete pair of records. -/
theorem eq_true_iff_name_and_all_keys_witness :
    AnMpid.eq exRecord exRecord2 = true ↔
      exRecord.name = exRecord2.name ∧ exRecord.public_keys = exRecord2.public_keys ∧
      exRecord.secret_keys = exRecord2.secret_keys :=
  eq_true_iff_name_and_all_keys exRecord exRecord2 (by decide) (by decide)

/-! ### Claim C3: the hashed input of address derivation -/

set_option maxRecDepth 10000 in
/-- C3 (counterexample): the claim says the derived address hashes the
exact concatenation of the two public keys, a buffer whose length is the
sum of the two public-key lengths (64), with no other bytes included.
On the concrete well-formed `exRecord` the buffer actually hashed is the
128-byte `arr_combined` (signing key at offset 0, encryption key at
offset 64, zero padding elsewhere), which differs from the tight
concatenation, as the instance with the identity hash shows. -/
theorem get_name_not_tight_concat :
    RoutingTrait.get_name (fun bs => bs) exRecord ≠
      NameType.mk (exRecord.public_keys.1 ++ exRecord.public_keys.2) ∧
    arr_combined exRecord ≠ exRecord.public_keys.1 ++ exRecord.public_keys.2 ∧
    (arr_combined exRecord).length = 128 ∧
    exRecord.wf := by
  decide

/-- C3 (amended): for every hash function `H` and well-formed record, the
derived address is `H` applied to the 128-byte buffer consisting of the
32 signing public key bytes, then 32 zero bytes, then the 32 encryption
public key bytes, then 32 zero bytes. -/
theorem get_name_hashes_padded_buffer (H : List Byte → List Byte) (r : AnMpid)
    (h : r.wf) :
    RoutingTrait.get_name H r =
      NameType.mk (H (r.public_keys.1 ++ List.replicate 32 0 ++
        r.public_keys.2 ++ List.replicate 32 0)) := by
  obtain ⟨h1, h2, _, _, _⟩ := h
  rw [RoutingTrait.get_name, arr_combined_eq r h1 h2]

/-- Witness for the amended C3 theorem at a concrete record and hash. -/
theorem get_name_hashes_padded_buffer_witness :
    RoutingTrait.get_name (fun bs => bs) exRecord =
      NameType.mk (exRecord.public_keys.1 ++ List.replicate 32 0 ++
        exRecord.public_keys.2 ++ List.replicate 32 0) :=
  get_name_hashes_padded_buffer (fun bs => bs) exRecord (by decide)

/-! ### Claim C5: address determinism in the public keys -/

/-- C5: address derivation is deterministic in the public keys only: any
two records with byte-equal public signing and encryption keys get the
same derived address, whatever their secret keys or correlation names,
and for every choice of hash function `H`. -/
theorem get_name_determined_by_public_keys (H : List Byte → List Byte)
    (r1 r2 : AnMpid) (h : r1.public_keys = r2.public_keys) :
    RoutingTrait.get_name H r1 = RoutingTrait.get_name H r2 := by
  simp [RoutingTrait.get_name, arr_combined, h]

/-- Witness for C5: `exRecord` and `exRecord2` share public keys but have
different secret keys and correlation names. -/
theorem get_name_determined_by_public_keys_witness :
    RoutingTrait.get_name (fun bs => bs) exRecord =
      RoutingTrait.get_name (fun bs => bs) exRecord2 :=
  get_name_determined_by_public_keys (fun bs => bs) exRecord exRecord2 (by decide)

/-! ### Claim C9: the owner accessor -/

/-- C9: `RoutingTrait::get_owner` returns `Some` of exactly the stored
64-byte correlation name and never returns `None`. -/
theorem get_owner_is_some_name (r : AnMpid) (h : r.wf) :
    RoutingTrait.get_owner r = some r.name.bytes ∧
    r.name.bytes.length = 64 ∧ RoutingTrait.get_owner r ≠ none := by
  refine ⟨rfl, h.2.2.2.2, ?_⟩
  simp [RoutingTrait.get_owner]

/-- Witness for C9 at a concrete record. -/
theorem get_owner_is_some_name_witness :
    RoutingTrait.get_owner exRecord = some exRecord.name.bytes ∧
    exRecord.name.bytes.length = 64 ∧ RoutingTrait.get_owner exRecord ≠ none :=
  get_owner_is_some_name exRecord (by decide)

/-! ### Claim C10: the two distinct `get_name` operations -/

/-- C10: the inherent accessor `AnMpid::get_name` returns exactly the
caller-supplied stored correlation name of `new(public_keys, secret_keys,
name)`, while `RoutingTrait::get_name` returns the hash-derived address
computed from the combined public-key buffer; the two coincide exactly
when the stored name equals that digest. -/
theorem inherent_vs_routing_get_name (H : List Byte → List Byte)
    (pk sk : List Byte × List Byte) (nm : NameType) :
    AnMpid.get_name (AnMpid.new pk sk nm) = nm ∧
    RoutingTrait.get_name H (AnMpid.new pk sk nm) =
      NameType.mk (H (arr_combined (AnMpid.new pk sk nm))) ∧
    (AnMpid.get_name (AnMpid.new pk sk nm) = RoutingTrait.get_name H (AnMpid.new pk sk nm) ↔
      nm = NameType.mk (H (arr_combined (AnMpid.new pk sk nm)))) :=
  ⟨rfl, rfl, Iff.rfl⟩

/-! ### Codec lemmas and claims C2, C4, C6, C7 -/

theorem encode_tokens (r : AnMpid) :
    AnMpid.encode r =
      [Token.u64 5483001, Token.byteSeq r.public_keys.1, Token.byteSeq r.public_keys.2,
        Token.byteSeq r.secret_keys.1, Token.byteSeq r.secret_keys.2,
        Token.byteSeq r.name.bytes] := by
  simp [AnMpid.encode, cborTagEncode, NameType.encodeTo, emitBytes, emitU64,
    array_as_vector]

/-- C7: `encode` emits the constant tag `5483001` first, followed by
exactly the public signing key bytes, the public encryption key bytes,
the secret signing key bytes, the secret encryption key bytes, and
finally the (64-byte, for well-formed records) correlation name, in that
order and nothing else. -/
theorem encode_layout (r : AnMpid) (h : r.wf) :
    AnMpid.encode r =
      [Token.u64 5483001, Token.byteSeq r.public_keys.1, Token.byteSeq r.public_keys.2,
        Token.byteSeq r.secret_keys.1, Token.byteSeq r.secret_keys.2,
        Token.byteSeq r.name.bytes] ∧
    r.name.bytes.length = 64 :=
  ⟨encode_tokens r, h.2.2.2.2⟩

/-- Witness for C7 at a concrete record. -/
theorem encode_layout_witness :
    AnMpid.encode exRecord =
      [Token.u64 5483001, Token.byteSeq exRecord.public_keys.1,
        Token.byteSeq exRecord.public_keys.2, Token.byteSeq exRecord.secret_keys.1,
        Token.byteSeq exRecord.secret_keys.2, Token.byteSeq exRecord.name.bytes] ∧
    exRecord.name.bytes.length = 64 :=
  encode_layout exRecord (by decide)

/-- C2: for every well-formed record, `decode (encode r)` succeeds,
consumes the whole wire form, the result equals `r` under the record
equality, and the public key bytes, both secret key byte arrays and the
correlation name of the decoded record are byte-for-byte those of `r`. -/
theorem decode_encode_roundtrip (r : AnMpid) (h : r.wf) :
    ∃ r2, AnMpid.decodeFrom (AnMpid.encode r) = Except.ok (r2, []) ∧
      AnMpid.eq r r2 = true ∧
      r2.public_keys = r.public_keys ∧ r2.secret_keys = r.secret_keys ∧
      r2.name = r.name := by
  obtain ⟨h1, h2, h3, h4, _⟩ := h
  refine ⟨r, ?_, ?_, rfl, rfl, rfl⟩
  · rw [encode_tokens r]
    simp [AnMpid.decodeFrom, AnMpid.decodeFromWith, readU64, readByteSeq,
      NameType.decodeFrom, vector_as_u8_32_array, vector_as_u8_64_array,
      h1, h2, h3, h4, AnMpid.new]
  · simp [AnMpid.eq, (nameType_beq_iff r.name r.name).mpr rfl, zipAllEq_self]

/-- Witness for C2 at a concrete record. -/
theorem decode_encode_roundtrip_witness :
    ∃ r2, AnMpid.decodeFrom (AnMpid.encode exRecord) = Except.ok (r2, []) ∧
      AnMpid.eq exRecord r2 = true ∧
      r2.public_keys = exRecord.public_keys ∧ r2.secret_keys = exRecord.secret_keys ∧
      r2.name = exRecord.name :=
  decode_encode_roundtrip exRecord (by decide)

theorem readU64_error_eq :
    ∀ (w : Wire) (e : DecodeError),
      readU64 w = Except.error e → e = DecodeError.typeMismatch
  | [], _ => by
      intro h
      simp [readU64] at h
      exact h.symm
  | Token.u64 _ :: _, _ => by
      intro h
      simp [readU64] at h
  | Token.byteSeq _ :: _, _ => by
      intro h
      simp [readU64] at h
      exact h.symm

theorem readByteSeq_error_eq :
    ∀ (w : Wire) (e : DecodeError),
      readByteSeq w = Except.error e → e = DecodeError.typeMismatch
  | [], _ => by
      intro h
      simp [readByteSeq] at h
      exact h.symm
  | Token.u64 _ :: _, _ => by
      intro h
      simp [readByteSeq] at h
      exact h.symm
  | Token.byteSeq _ :: _, _ => by
      intro h
      simp [readByteSeq] at h

theorem nameType_decodeFrom_error_eq (w : Wire) (e : DecodeError) :
    NameType.decodeFrom w = Except.error e → e = DecodeError.typeMismatch := by
  intro h
  unfold NameType.decodeFrom at h
  cases h2 : readByteSeq w with
  | error e2 =>
      rw [h2] at h
      simp only [Except.error.injEq] at h
      rw [← h]
      exact readByteSeq_error_eq w e2 h2
  | ok p =>
      obtain ⟨bs, w1⟩ := p
      rw [h2] at h
      simp at h

/-- C4 (code divergence): the claim — like the spec's §4.1, §7 and
testable property 5 — requires `decode` to return the aggregated
`MalformedRecord` error whenever a key byte sequence read from the wire
has the wrong length, and never to return a record.  The decode of
an_mpid.rs:179-189 cannot do this: its only failure exits are the tag
and tuple reads, which fire before any length is examined, and after
they succeed the conversion results feed directly into the key
constructors of an unconditional `Ok`.  Formally: whatever total
behavior the absent helper conversions have, decoding a wire whose
signing public key field is truncated to 31 bytes returns `Ok` of a
record built from the wrong-length bytes; and on every wire, decode
either succeeds or fails with the reads' wire-shape error — never with
`MalformedRecord`.  (If the real helper diverges instead of returning,
decode produces no result at all; in no case does it return the claimed
typed error.) -/
theorem decode_wrong_length_returns_ok_never_malformed :
    (∀ conv32 conv64 : List Byte → List Byte,
      AnMpid.decodeFromWith conv32 conv64
          [Token.u64 5483001, Token.byteSeq (List.replicate 31 1),
            Token.byteSeq (List.replicate 32 2), Token.byteSeq (List.replicate 64 3),
            Token.byteSeq (List.replicate 32 4), Token.byteSeq (List.replicate 64 5)] =
        Except.ok (AnMpid.new (conv32 (List.replicate 31 1), conv32 (List.replicate 32 2))
          (conv64 (List.replicate 64 3), conv32 (List.replicate 32 4))
          (NameType.mk (List.replicate 64 5)), [])) ∧
    (∀ (conv32 conv64 : List Byte → List Byte) (w : Wire),
      (∃ x, AnMpid.decodeFromWith conv32 conv64 w = Except.ok x) ∨
      AnMpid.decodeFromWith conv32 conv64 w = Except.error DecodeError.typeMismatch) := by
  constructor
  · intro conv32 conv64
    rfl
  · intro conv32 conv64 w
    unfold AnMpid.decodeFromWith
    repeat' split
    all_goals
      first
        | exact Or.inl ⟨_, rfl⟩
        | (right
           rename_i e heq
           rw [readU64_error_eq _ _ heq])
        | (right
           rename_i e heq
           rw [readByteSeq_error_eq _ _ heq])
        | (right
           rename_i e heq
           rw [nameType_decodeFrom_error_eq _ _ heq])

/-- C6: `decode` reads the leading numeric tag and discards it without
comparing it to the expected constant: decoding is insensitive to the
tag value, and an otherwise well-formed encoding whose tag is replaced
by an arbitrary value still decodes successfully. -/
theorem decode_ignores_tag_value (t t' : Nat) (w : Wire) (r : AnMpid) (h : r.wf) :
    AnMpid.decodeFrom (Token.u64 t :: w) = AnMpid.decodeFrom (Token.u64 t' :: w) ∧
    AnMpid.decodeFrom (Token.u64 t :: (AnMpid.encode r).drop 1) = Except.ok (r, []) := by
  obtain ⟨h1, h2, h3, h4, _⟩ := h
  constructor
  · simp [AnMpid.decodeFrom, AnMpid.decodeFromWith, readU64]
  · rw [encode_tokens r]
    simp [AnMpid.decodeFrom, AnMpid.decodeFromWith, readU64, readByteSeq,
      NameType.decodeFrom, vector_as_u8_32_array, vector_as_u8_64_array,
      h1, h2, h3, h4, AnMpid.new]

/-- Witness for C6 at a concrete record and two unrelated tag values. -/
theorem decode_ignores_tag_value_witness :
    AnMpid.decodeFrom (Token.u64 7 :: ([] : Wire)) =
      AnMpid.decodeFrom (Token.u64 9 :: ([] : Wire)) ∧
    AnMpid.decodeFrom (Token.u64 7 :: (AnMpid.encode exRecord).drop 1) =
      Except.ok (exRecord, []) :=
  decode_ignores_tag_value 7 9 [] exRecord (by decide)

/-! ### Claim C8: Debug formatting of a record -/

set_option maxRecDepth 40000 in
/-- C8 (counterexample): the claim says the `Debug` text of a record
does not contain the bytes of the secret signing key or of the secret
encryption key.  On the concrete well-formed `exRecord`, the renderings
of both secret key byte arrays occur verbatim inside the `Debug`
output. -/
theorem fmtDebug_contains_secret_bytes :
    stringContainsBytes (AnMpid.fmtDebug exRecord) exRecord.secret_keys.1 = true ∧
    stringContainsBytes (AnMpid.fmtDebug exRecord) exRecord.secret_keys.2 = true ∧
    exRecord.wf := by
  decide

/-- C8 (amended): for every record, the `Debug` formatting does reveal
the secret key material: the rendering of the secret signing key bytes
and the rendering of the secret encryption key bytes each occur
contiguously inside the `Debug` output. -/
theorem fmtDebug_exposes_secret_keys (r : AnMpid) :
    (∃ s t, AnMpid.fmtDebug r = s ++ fmtByteList r.secret_keys.1 ++ t) ∧
    (∃ s t, AnMpid.fmtDebug r = s ++ fmtByteList r.secret_keys.2 ++ t) := by
  constructor
  · refine ⟨"AnMpid(public_keys:(" ++ fmtByteList r.public_keys.1 ++ ", " ++
      fmtByteList r.public_keys.2 ++ "), secret_keys:(",
      ", " ++ fmtByteList r.secret_keys.2 ++ "), name: " ++
        NameType.fmtDebug r.name ++ ")", ?_⟩
    simp [AnMpid.fmtDebug, String.append_assoc]
  · refine ⟨"AnMpid(public_keys:(" ++ fmtByteList r.public_keys.1 ++ ", " ++
      fmtByteList r.public_keys.2 ++ "), secret_keys:(" ++
      fmtByteList r.secret_keys.1 ++ ", ",
      "), name: " ++ NameType.fmtDebug r.name ++ ")", ?_⟩
    simp [AnMpid.fmtDebug, String.append_assoc]

end MaidsafeTypes
